import Mathlib

/-!
Shallow embedding of the gonfig configuration registry (registry.go, path.go,
schema.go) and proofs about its path-addressed read/write semantics, loader
lifecycle, typed coercion layer, schema validation and singleton construction.

Go values of type `interface{}` stored in configuration maps are embedded as
the inductive `Value`; Go's `map[string]interface{}` is embedded as an
association list with unique keys (`ConfigTree`), since Go map iteration order
never matters for the properties below.  `float64` payloads are embedded as
rationals: the claims proved here never depend on rounding of floating-point
arithmetic, only on which coercion branch is taken.  Locks are erased (every
operation is modelled as a pure state transformer), and a Go `panic` is
modelled as an explicit outcome constructor where a claim depends on it.
-/

/-- Go `interface{}` values that can occur in a configuration tree:
nil, bool, int, float64, string, []string, []interface{} and
map[string]interface{} (the nested tree). -/
inductive Value where
  | vNull : Value
  | vBool : Bool → Value
  | vInt : Int → Value
  | vFloat : ℚ → Value
  | vStr : String → Value
  | vStrList : List String → Value
  | vSeq : List Value → Value
  | vTree : List (String × Value) → Value
deriving Repr

/-- Go `map[string]interface{}`, as an association list with unique keys. -/
abbrev ConfigTree := List (String × Value)

/-- Go map read `m[k]` (comma-ok form): first binding of `k`, if any. -/
def lookupKey (k : String) : List (String × α) → Option α
  | [] => none
  | (k2, v) :: rest => if k2 = k then some v else lookupKey k rest

/-- Go map write `m[k] = v`: replace the binding of `k`, or append it. -/
def insertKey (k : String) (v : α) : List (String × α) → List (String × α)
  | [] => [(k, v)]
  | (k2, v2) :: rest =>
      if k2 = k then (k, v) :: rest else (k2, v2) :: insertKey k v rest

/-- `strings.Join(segs, ".")`. -/
def joinDot (segs : List String) : String := String.intercalate "." segs

/-- Accumulator loop for `strings.Split` with a one-character separator. -/
def splitOnCharAux (sep : Char) : List Char → List Char → List String
  | [], acc => [String.mk acc.reverse]
  | c :: rest, acc =>
      if c = sep then String.mk acc.reverse :: splitOnCharAux sep rest []
      else splitOnCharAux sep rest (c :: acc)

/-- `strings.Split(s, sep)` for a one-character separator: always returns at
least one (possibly empty) segment, and preserves empty segments. -/
def splitOnChar (sep : Char) (s : String) : List String :=
  splitOnCharAux sep s.data []

/-- `strings.Split(path, ".")`, the path splitter used throughout. -/
def splitDot (path : String) : List String := splitOnChar '.' path

/-- ASCII branch of `unicode.IsSpace` (the whitespace actually exercised by
configuration values). -/
def isSpaceChar (c : Char) : Bool :=
  c == ' ' || c == '\t' || c == '\n' || c == '\x0b' || c == '\x0c' || c == '\r'

/-- `strings.TrimSpace`. -/
def trimSpace (s : String) : String :=
  String.mk (((s.data.dropWhile isSpaceChar).reverse.dropWhile isSpaceChar).reverse)

/-- Splitter over character lists (used to model the decimal point in
`strconv.ParseFloat` literals). -/
def listSplitChar (sep : Char) : List Char → List Char → List (List Char)
  | [], acc => [acc.reverse]
  | c :: rest, acc =>
      if c = sep then acc.reverse :: listSplitChar sep rest []
      else listSplitChar sep rest (c :: acc)

/-- Body of `traverse` (registry.go).  `visited` holds the segments already
descended through, so that `joinDot (visited ++ [part])` is Go's
`strings.Join(parts[:i+1], ".")` when `traverse` is entered with
`visited = []`.  The `[]` case is unreachable from the Go call sites
(`lookup`, `Set`, `Validate` always pass a non-empty segment list). -/
def traverseFrom (visited : List String) (current : ConfigTree)
    (parts : List String) (fullPath : String) : Except String Value :=
  match parts with
  | [] => .error "empty segment list"
  | [last] =>
      match lookupKey last current with
      | some v => .ok v
      | none =>
          .error ("key not found: \x27" ++ last ++ "\x27 in path \x27" ++ fullPath ++ "\x27")
  | part :: rest =>
      match lookupKey part current with
      | some (.vTree next) => traverseFrom (visited ++ [part]) next rest fullPath
      | some _ =>
          .error ("value at \x27" ++ joinDot (visited ++ [part]) ++ "\x27 in path \x27"
            ++ fullPath ++ "\x27 is not a map, cannot traverse further")
      | none =>
          .error ("key not found: \x27" ++ joinDot (visited ++ [part]) ++ "\x27 in path \x27"
            ++ fullPath ++ "\x27")

/-- `traverse` (registry.go): walk a nested tree along `parts`, reporting
the accumulated prefix on intermediate failures. -/
def traverse (config : ConfigTree) (parts : List String) (fullPath : String) :
    Except String Value :=
  traverseFrom [] config parts fullPath

/-- `setValue` (registry.go), as a pure tree transformer: descend along all
but the last segment, replacing an absent or non-map intermediate value by an
empty tree, and assign `value` at the last segment.  The Go function mutates
`config` in place and always returns a nil error; the `[]` case is
unreachable from its call sites. -/
def setValue (config : ConfigTree) (parts : List String) (value : Value) :
    ConfigTree :=
  match parts with
  | [] => config
  | [last] => insertKey last value config
  | part :: rest =>
      let next : ConfigTree :=
        match lookupKey part config with
        | some (.vTree t) => t
        | _ => []
      insertKey part (.vTree (setValue next rest value)) config

/-- Pure descent through nested trees: `some t2` when every segment of
`segs` holds a nested tree.  Used to phrase where `traverse` is standing
when it fails. -/
def walk (t : ConfigTree) : List String → Option ConfigTree
  | [] => some t
  | s :: rest =>
      match lookupKey s t with
      | some (.vTree next) => walk next rest
      | _ => none

/-- Observable behaviour of one invocation of a registered loader callback
(`configContracts.ConfigLoader`): it either panics, or returns a
`map[string]interface{}` — possibly the nil map, embedded as `none`. -/
inductive LoaderResult where
  | panics : LoaderResult
  | returns : Option ConfigTree → LoaderResult
deriving Repr

/-- `ConfigRegistry` (registry.go): the section map and the loader table.
A section stored as Go's nil map is `some none`-style: `configs` binds a
name to `none` exactly when `configs[name]` is a nil map.  The `sync.RWMutex`
is erased. -/
structure ConfigRegistry where
  configs : List (String × Option ConfigTree)
  loaders : List (String × LoaderResult)
deriving Repr

/-- `Register` (registry.go): store the loader, then invoke it; a panic is
recovered and the section is set to a fresh empty map, otherwise the section
receives the returned tree (even a nil one). -/
def ConfigRegistry.register (r : ConfigRegistry) (name : String)
    (loader : LoaderResult) : ConfigRegistry :=
  let r1 : ConfigRegistry := { r with loaders := insertKey name loader r.loaders }
  match loader with
  | .panics => { r1 with configs := insertKey name (some []) r1.configs }
  | .returns t => { r1 with configs := insertKey name t r1.configs }

/-- Loop body of `Refresh` (registry.go): invoke each loader under a panic
boundary; on panic, only an absent section is set to a fresh empty map; on
return, the section is overwritten with the returned tree. -/
def refreshConfigs : List (String × LoaderResult) →
    List (String × Option ConfigTree) → List (String × Option ConfigTree)
  | [], cfgs => cfgs
  | (name, res) :: rest, cfgs =>
      match res with
      | .panics =>
          refreshConfigs rest
            (if (lookupKey name cfgs).isSome then cfgs
             else insertKey name (some []) cfgs)
      | .returns t => refreshConfigs rest (insertKey name t cfgs)

/-- `Refresh` (registry.go): re-invoke every registered loader. -/
def ConfigRegistry.refresh (r : ConfigRegistry) : ConfigRegistry :=
  { r with configs := refreshConfigs r.loaders r.configs }

/-- `lookup` (registry.go): split the path, resolve the section (missing and
nil sections are distinct errors), return the whole section tree for a
one-segment path, and otherwise traverse the remainder. -/
def ConfigRegistry.lookup (r : ConfigRegistry) (path : String) :
    Except String Value :=
  match splitDot path with
  | [] => .error "empty split"
  | section_ :: rest =>
      match lookupKey section_ r.configs with
      | none =>
          .error ("config section not found: \x27" ++ section_ ++ "\x27 in path \x27"
            ++ path ++ "\x27")
      | some none =>
          .error ("config section is nil: \x27" ++ section_ ++ "\x27 in path \x27"
            ++ path ++ "\x27")
      | some (some config) =>
          match rest with
          | [] => .ok (.vTree config)
          | _ => traverse config rest path

/-- `Get` (registry.go): `lookup` under the read lock. -/
def ConfigRegistry.get (r : ConfigRegistry) (path : String) :
    Except String Value :=
  r.lookup path

/-- Outcome of `Set` (registry.go): an error return, a normal return with
the updated registry, or a runtime panic (writing through a nil section map
panics in Go with "assignment to entry in nil map"). -/
inductive SetOutcome where
  | ok : ConfigRegistry → SetOutcome
  | err : String → SetOutcome
  | panicked : SetOutcome
deriving Repr

/-- `Set` (registry.go): require at least two segments and an existing
section, then delegate to `setValue` on the section's tree.  A section
stored as a nil map makes the Go `setValue` panic on its first write. -/
def ConfigRegistry.set (r : ConfigRegistry) (path : String) (value : Value) :
    SetOutcome :=
  let parts := splitDot path
  if parts.length < 2 then .err ("invalid config path: " ++ path)
  else
    match parts with
    | [] => .err ("invalid config path: " ++ path)
    | section_ :: rest =>
        match lookupKey section_ r.configs with
        | none => .err ("config section not found: " ++ section_)
        | some none => .panicked
        | some (some config) =>
            .ok { r with
              configs := insertKey section_ (some (setValue config rest value)) r.configs }

/-- Digit run to its decimal value; `none` on an empty or non-digit run. -/
def digitsVal (cs : List Char) : Option Nat :=
  if cs.isEmpty then none
  else cs.foldlM (fun acc c => if c.isDigit then some (acc * 10 + (c.toNat - 48)) else none) 0

/-- `strconv.Atoi`: optional sign followed by a non-empty digit run.
(The 64-bit range check is dropped: no property below depends on overflow.) -/
def atoi (s : String) : Option Int :=
  match s.data with
  | '+' :: rest => (digitsVal rest).map Int.ofNat
  | '-' :: rest => (digitsVal rest).map (fun n => -(n : Int))
  | cs => (digitsVal cs).map Int.ofNat

/-- `strconv.ParseBool`: exactly these twelve literals. -/
def parseBool (s : String) : Option Bool :=
  if s ∈ (["1", "t", "T", "TRUE", "true", "True"] : List String) then some true
  else if s ∈ (["0", "f", "F", "FALSE", "false", "False"] : List String) then some false
  else none

/-- `strconv.ParseFloat` restricted to plain decimal literals
(optional sign, digits, optional fraction): the exotic forms it also accepts
(exponents, hex floats, inf/NaN) are never exercised by the claims, which
only depend on which coercion branch a value takes. -/
def parseFloat (s : String) : Option ℚ :=
  let signed : Bool × List Char :=
    match s.data with
    | '+' :: rest => (false, rest)
    | '-' :: rest => (true, rest)
    | cs => (false, cs)
  let app : ℚ → ℚ := fun q => if signed.1 then -q else q
  match listSplitChar '.' signed.2 [] with
  | [ip] => (digitsVal ip).map (fun n => app n)
  | [ip, fp] =>
      if ip.isEmpty && fp.isEmpty then none
      else do
        let ipn ← if ip.isEmpty then some 0 else digitsVal ip
        let fpn ← if fp.isEmpty then some 0 else digitsVal fp
        some (app ((ipn : ℚ) + (fpn : ℚ) / ((10 : ℚ) ^ fp.length)))
  | _ => none

/-- Go's `int(f)` on a `float64`: truncation toward zero. -/
def floatTrunc (q : ℚ) : Int :=
  if 0 ≤ q then Rat.floor q else -Rat.floor (-q)

/-- Go's `%T` on the embedded values. -/
def goTypeName : Value → String
  | .vNull => "<nil>"
  | .vBool _ => "bool"
  | .vInt _ => "int"
  | .vFloat _ => "float64"
  | .vStr _ => "string"
  | .vStrList _ => "[]string"
  | .vSeq _ => "[]interface \x7b\x7d"
  | .vTree _ => "map[string]interface \x7b\x7d"

/-- The type switch of `GetString` (registry.go): identity on strings,
otherwise the (unquoted-path) error the source produces. -/
def coerceString (path : String) (v : Value) : Except String String :=
  match v with
  | .vStr s => .ok s
  | _ => .error ("value at " ++ path ++ " is not a string")

/-- The type switch of `GetInt` (registry.go): int identity, float64
truncation, string parse; the parse error's `strconv` suffix is abbreviated
to "invalid syntax" (no claim inspects it). -/
def coerceInt (path : String) (v : Value) : Except String Int :=
  match v with
  | .vInt n => .ok n
  | .vFloat q => .ok (floatTrunc q)
  | .vStr s =>
      match atoi s with
      | some i => .ok i
      | none =>
          .error ("cannot convert value \x27" ++ s ++ "\x27 at path \x27" ++ path
            ++ "\x27 to int: invalid syntax")
  | _ =>
      .error ("cannot convert value at path \x27" ++ path ++ "\x27 to int: found type "
        ++ goTypeName v)

/-- The type switch of `GetBool` (registry.go). -/
def coerceBool (path : String) (v : Value) : Except String Bool :=
  match v with
  | .vBool b => .ok b
  | .vStr s =>
      match parseBool s with
      | some b => .ok b
      | none =>
          .error ("cannot convert value \x27" ++ s ++ "\x27 at path \x27" ++ path
            ++ "\x27 to bool: invalid syntax")
  | _ =>
      .error ("cannot convert value at path \x27" ++ path ++ "\x27 to bool: found type "
        ++ goTypeName v)

/-- The type switch of `GetFloat` (registry.go). -/
def coerceFloat (path : String) (v : Value) : Except String ℚ :=
  match v with
  | .vFloat q => .ok q
  | .vInt n => .ok (n : ℚ)
  | .vStr s =>
      match parseFloat s with
      | some q => .ok q
      | none =>
          .error ("cannot convert value \x27" ++ s ++ "\x27 at path \x27" ++ path
            ++ "\x27 to float64: invalid syntax")
  | _ =>
      .error ("cannot convert value at path \x27" ++ path ++ "\x27 to float64: found type "
        ++ goTypeName v)

/-- Element loop of `GetStringArray`'s `[]interface{}` case: every element
must be a string; the first non-string fails naming its index and type. -/
def seqToStrings (path : String) (i : Nat) : List Value → Except String (List String)
  | [] => .ok []
  | v :: rest =>
      match v with
      | .vStr s => (seqToStrings path (i + 1) rest).map (fun xs => s :: xs)
      | _ =>
          .error ("cannot convert item at index " ++ toString i ++ " in path \x27" ++ path
            ++ "\x27 to string: found type " ++ goTypeName v)

/-- The type switch of `GetStringArray` (registry.go): `[]string` identity;
a string is special-cased at `""` and otherwise split on `,` with each part
whitespace-trimmed; `[]interface{}` requires all-string elements. -/
def coerceStringArray (path : String) (v : Value) : Except String (List String) :=
  match v with
  | .vStrList xs => .ok xs
  | .vStr s => if s = "" then .ok [] else .ok ((splitOnChar ',' s).map trimSpace)
  | .vSeq xs => seqToStrings path 0 xs
  | _ =>
      .error ("cannot convert value at path \x27" ++ path
        ++ "\x27 to string array: found type " ++ goTypeName v)

/-- `GetString` (registry.go).  The Go variadic default parameter is an
`Option`: `some d` when a default was passed. -/
def ConfigRegistry.getString (r : ConfigRegistry) (path : String)
    (dflt : Option String) : Except String String :=
  match r.get path with
  | .error e =>
      match dflt with
      | some d => .ok d
      | none => .error e
  | .ok v => coerceString path v

/-- `GetInt` (registry.go). -/
def ConfigRegistry.getInt (r : ConfigRegistry) (path : String)
    (dflt : Option Int) : Except String Int :=
  match r.get path with
  | .error e =>
      match dflt with
      | some d => .ok d
      | none => .error e
  | .ok v => coerceInt path v

/-- `GetBool` (registry.go). -/
def ConfigRegistry.getBool (r : ConfigRegistry) (path : String)
    (dflt : Option Bool) : Except String Bool :=
  match r.get path with
  | .error e =>
      match dflt with
      | some d => .ok d
      | none => .error e
  | .ok v => coerceBool path v

/-- `GetFloat` (registry.go). -/
def ConfigRegistry.getFloat (r : ConfigRegistry) (path : String)
    (dflt : Option ℚ) : Except String ℚ :=
  match r.get path with
  | .error e =>
      match dflt with
      | some d => .ok d
      | none => .error e
  | .ok v => coerceFloat path v

/-- `GetStringArray` (registry.go). -/
def ConfigRegistry.getStringArray (r : ConfigRegistry) (path : String)
    (dflt : Option (List String)) : Except String (List String) :=
  match r.get path with
  | .error e =>
      match dflt with
      | some d => .ok d
      | none => .error e
  | .ok v => coerceStringArray path v

mutual

/-- `toString` (registry.go): strings pass through, everything else is
formatted with `fmt.Sprintf("%v", v)`; the Go function never returns an
error.  Formatting of floats and nested maps is approximated (no claim
inspects it); ints, bools, nil and slices follow `%v` exactly. -/
def goToString : Value → String
  | .vNull => "<nil>"
  | .vBool b => if b then "true" else "false"
  | .vInt n => toString n
  | .vFloat q => toString q
  | .vStr s => s
  | .vStrList xs => "[" ++ String.intercalate " " xs ++ "]"
  | .vSeq xs => "[" ++ String.intercalate " " (goToStringList xs) ++ "]"
  | .vTree _ => "map[]"

/-- `goToString` mapped over a list of values. -/
def goToStringList : List Value → List String
  | [] => []
  | v :: rest => goToString v :: goToStringList rest

end

/-- `toStringSlice` (registry.go): `[]string` identity; a string is
special-cased at `""` and otherwise split on `,` with NO trimming; a
`[]interface{}` converts every element through `toString`, whose error
branch is unreachable (so the per-item error return in the source is dead
code). -/
def toStringSlice (v : Value) : Except String (List String) :=
  match v with
  | .vStrList xs => .ok xs
  | .vStr s => if s = "" then .ok [] else .ok (splitOnChar ',' s)
  | .vSeq xs => .ok (goToStringList xs)
  | _ => .error ("cannot convert " ++ goTypeName v ++ " to []string")

/-- `setField` (registry.go) restricted to a settable struct field of kind
slice-of-string: it delegates to `toStringSlice`. -/
def setFieldStringSlice (value : Value) : Except String (List String) :=
  toStringSlice value

/-- `PathCache` (path.go): the memoization table of `sync.Map`, as an
association list. -/
structure PathCache where
  cache : List (String × List String)
deriving Repr

/-- `PathCache.Get` (path.go): return the cached segment list when present,
otherwise split, store and return. -/
def PathCache.get (pc : PathCache) (path : String) : List String × PathCache :=
  match lookupKey path pc.cache with
  | some parts => (parts, pc)
  | none =>
      let parts := splitDot path
      (parts, ⟨insertKey path parts pc.cache⟩)

/-- Outcome of one `godotenv.Load` call (external I/O, passed in as an
oracle). -/
inductive DotenvOutcome where
  | success : DotenvOutcome
  | failure : String → DotenvOutcome

/-- The package-level state of registry.go: `globalConfigRegistry` (Go nil
interface embedded as `none`) and whether `globalConfigRegistryOnce.Do` has
already run its body. -/
structure GlobalState where
  registry : Option ConfigRegistry
  onceFired : Bool

/-- `GetConfigRegistry` (registry.go): the `sync.Once` body validates `env`,
loads the matching dotenv file and constructs the registry; the function
then returns `(nil, initErr)` on a fresh failure and
`(globalConfigRegistry, nil)` otherwise — in particular `initErr` is a
local that is only ever set inside the once body.  Result is
`((registry, error), new global state)`. -/
def getConfigRegistry (st : GlobalState) (env : String)
    (dotenvLoad : String → DotenvOutcome) :
    (Option ConfigRegistry × Option String) × GlobalState :=
  if st.onceFired then ((st.registry, none), st)
  else
    let fired : GlobalState := { st with onceFired := true }
    if env = "" then
      ((none, some "env is required when initializing config registry"), fired)
    else if env = "development" ∨ env = "staging" ∨ env = "production" then
      match dotenvLoad ".env" with
      | .failure m => ((none, some ("error loading .env file: " ++ m)), fired)
      | .success =>
          let r : ConfigRegistry := { configs := [], loaders := [] }
          ((some r, none), { registry := some r, onceFired := true })
    else if env = "testing" then
      match dotenvLoad ".env.testing" with
      | .failure m => ((none, some ("error loading .env.testing file: " ++ m)), fired)
      | .success =>
          let r : ConfigRegistry := { configs := [], loaders := [] }
          ((some r, none), { registry := some r, onceFired := true })
    else ((none, some ("invalid env: " ++ env)), fired)

/-- `reflect.Kind` restricted to the kinds a `Value` can take. -/
inductive GoKind where
  | kBool | kInt | kFloat64 | kString | kSlice | kMap
deriving Repr, DecidableEq

/-- `reflect.TypeOf(value).Kind()` on the embedded values (never applied to
nil: `validateValue` returns before reaching it). -/
def kindOf : Value → GoKind
  | .vNull => .kMap
  | .vBool _ => .kBool
  | .vInt _ => .kInt
  | .vFloat _ => .kFloat64
  | .vStr _ => .kString
  | .vStrList _ => .kSlice
  | .vSeq _ => .kSlice
  | .vTree _ => .kMap

/-- `reflect.Kind.String()` on the kinds above. -/
def kindName : GoKind → String
  | .kBool => "bool"
  | .kInt => "int"
  | .kFloat64 => "float64"
  | .kString => "string"
  | .kSlice => "slice"
  | .kMap => "map"

/-- `ConfigSchemaField` (contracts): expected kind, required flag, optional
default (`none` = Go nil interface) and optional custom validator. -/
structure ConfigSchemaField where
  type : GoKind
  required : Bool
  default : Option Value
  validator : Option (Value → Except String Unit)

/-- `validateValue` (schema.go): nil is rejected only when required; then
the reflected kind must match; then the custom validator, if any, runs. -/
def validateValue (value : Value) (field : ConfigSchemaField) : Except String Unit :=
  match value with
  | .vNull => if field.required then .error "required field is nil" else .ok ()
  | v =>
      if kindOf v ≠ field.type then
        .error ("expected type " ++ kindName field.type ++ ", got " ++ kindName (kindOf v))
      else
        match field.validator with
        | some p => p v
        | none => .ok ()

/-- Loop body of `ConfigSchema.Validate` (schema.go), with the mutation of
the caller's tree made explicit in the return value: traversal failure on a
required field aborts; on an optional field with a non-nil default the
default is injected with `setValue`; a present value is checked by
`validateValue` with its error re-wrapped. -/
def validateFields : List (String × ConfigSchemaField) → ConfigTree →
    Except String ConfigTree
  | [], config => .ok config
  | (path, field) :: rest, config =>
      let parts := splitDot path
      match traverse config parts path with
      | .error _ =>
          if field.required then .error ("required field missing: " ++ path)
          else
            match field.default with
            | some d => validateFields rest (setValue config parts d)
            | none => validateFields rest config
      | .ok v =>
          match validateValue v field with
          | .error e => .error ("validation failed for " ++ path ++ ": " ++ e)
          | .ok _ => validateFields rest config

/-- `ConfigSchema` (schema.go): the dotted-path-to-field table. -/
structure ConfigSchema where
  fields : List (String × ConfigSchemaField)

/-- `ConfigSchema.Validate` (schema.go). -/
def ConfigSchema.validate (s : ConfigSchema) (config : ConfigTree) :
    Except String ConfigTree :=
  validateFields s.fields config

example : traverse [("a", .vTree [("b", .vInt 5)])] ["a", "b"] "s.a.b" = .ok (.vInt 5) := rfl

example : traverse [("a", .vInt 1)] ["a", "b"] "s.a.b" =
    .error "value at \x27a\x27 in path \x27s.a.b\x27 is not a map, cannot traverse further" := rfl

example : setValue [] ["a", "b"] (.vInt 3) = [("a", .vTree [("b", .vInt 3)])] := rfl

theorem lookupKey_insertKey_self (k : String) (v : α) (l : List (String × α)) :
    lookupKey k (insertKey k v l) = some v := by
  induction l with
  | nil => simp [insertKey, lookupKey]
  | cons hd tl ih =>
      obtain ⟨k2, v2⟩ := hd
      by_cases h : k2 = k
      · simp [insertKey, lookupKey, h]
      · simp [insertKey, lookupKey, h, ih]

theorem lookupKey_insertKey_ne (h : k2 ≠ k) (v : α) (l : List (String × α)) :
    lookupKey k (insertKey k2 v l) = lookupKey k l := by
  induction l with
  | nil => simp [insertKey, lookupKey, h]
  | cons hd tl ih =>
      obtain ⟨k3, v3⟩ := hd
      by_cases h3 : k3 = k2
      · subst h3
        simp [insertKey, lookupKey, h, ih]
      · by_cases h4 : k3 = k
        · subst h4
          simp [insertKey, lookupKey, h3, Ne.symm h]
        · simp [insertKey, lookupKey, h3, h4, ih]

/-- Successful traversal, and traversal one level down, do not depend on the
`visited` accumulator (it only feeds error messages); stepping through a
fully-walkable prefix shifts it.  `parts ≠ []` mirrors the Go loop shape. -/
theorem traverseFrom_after_walk (pre : List String) :
    ∀ (visited : List String) (t t2 : ConfigTree) (parts : List String) (fp : String),
    walk t pre = some t2 → parts ≠ [] →
    traverseFrom visited t (pre ++ parts) fp = traverseFrom (visited ++ pre) t2 parts fp := by
  induction pre with
  | nil =>
      intro visited t t2 parts fp hw _
      simp [walk] at hw
      subst hw
      simp
  | cons p pre2 ih =>
      intro visited t t2 parts fp hw hparts
      cases hlk : lookupKey p t with
      | none => simp [walk, hlk] at hw
      | some v =>
          cases v with
          | vTree next =>
              have hw2 : walk next pre2 = some t2 := by
                simpa [walk, hlk] using hw
              have hne : pre2 ++ parts ≠ [] := by
                intro hcon
                exact hparts (List.append_eq_nil.mp hcon).2
              obtain ⟨q, qs, hqq⟩ := List.exists_cons_of_ne_nil hne
              have step :
                  traverseFrom visited t ((p :: pre2) ++ parts) fp =
                    traverseFrom (visited ++ [p]) next (pre2 ++ parts) fp := by
                simp only [List.cons_append]
                rw [hqq]
                simp [traverseFrom, hlk]
              rw [step, ih (visited ++ [p]) next t2 parts fp hw2 hparts]
              simp
          | vNull => simp [walk, hlk] at hw
          | vBool b => simp [walk, hlk] at hw
          | vInt n => simp [walk, hlk] at hw
          | vFloat q => simp [walk, hlk] at hw
          | vStr s => simp [walk, hlk] at hw
          | vStrList xs => simp [walk, hlk] at hw
          | vSeq xs => simp [walk, hlk] at hw

/-- After `setValue` writes `value` along `parts`, traversing the same
`parts` finds it, whatever the accumulator and full path. -/
theorem traverseFrom_setValue (parts : List String) :
    ∀ (visited : List String) (t : ConfigTree) (value : Value) (fp : String),
    parts ≠ [] →
    traverseFrom visited (setValue t parts value) parts fp = .ok value := by
  induction parts with
  | nil => intro _ _ _ _ h; exact absurd rfl h
  | cons x rest ih =>
      intro visited t value fp _
      cases rest with
      | nil => simp [setValue, traverseFrom, lookupKey_insertKey_self]
      | cons y rest2 =>
          simp only [setValue, traverseFrom, lookupKey_insertKey_self]
          exact ih (visited ++ [x]) _ value fp (by simp)

/-- `Set` with at least two segments and an existing non-nil section
returns normally with the section's tree rewritten by `setValue`. -/
theorem set_eq_ok_of_section (r : ConfigRegistry) (path : String) (value : Value)
    (section_ : String) (rest : List String) (t : ConfigTree)
    (hsplit : splitDot path = section_ :: rest) (hrest : rest ≠ [])
    (hsec : lookupKey section_ r.configs = some (some t)) :
    r.set path value =
      .ok { r with configs := insertKey section_ (some (setValue t rest value)) r.configs } := by
  obtain ⟨y, ys, rfl⟩ := List.exists_cons_of_ne_nil hrest
  have hlen : ¬((splitDot path).length < 2) := by
    rw [hsplit]
    simp
  unfold ConfigRegistry.set
  simp only [hsplit] at hlen ⊢
  rw [if_neg hlen]
  simp [hsec]

/-- Example registry used by several concrete witnesses: two ordinary
sections. -/
def rEx : ConfigRegistry :=
  { configs :=
      [("app", some [("x", .vInt 1), ("name", .vStr "MyApp")]),
       ("t", some [("string_value", .vStr "test"), ("int_value", .vInt 42),
                   ("seq_value", .vSeq [.vStr "one", .vInt 2])])],
    loaders := [] }

/-- Registry whose only section was registered by a loader that returned a
nil map, as `Register` stores it verbatim. -/
def rNilSec : ConfigRegistry :=
  ConfigRegistry.register { configs := [], loaders := [] } "s" (.returns none)

/-- C1: for every (path, value) with at least two dot-separated segments
whose first segment names a registered section that is stored as a non-nil
tree, `Set(path, value)` returns normally and a subsequent `Get(path)`
returns a value equal to the one that was set. -/
theorem C1_set_get_roundtrip (r : ConfigRegistry) (path : String) (value : Value)
    (section_ : String) (rest : List String) (t : ConfigTree)
    (hsplit : splitDot path = section_ :: rest) (hrest : rest ≠ [])
    (hsec : lookupKey section_ r.configs = some (some t)) :
    ∃ r2, r.set path value = .ok r2 ∧ r2.get path = .ok value := by
  refine ⟨_, set_eq_ok_of_section r path value section_ rest t hsplit hrest hsec, ?_⟩
  obtain ⟨y, ys, rfl⟩ := List.exists_cons_of_ne_nil hrest
  unfold ConfigRegistry.get ConfigRegistry.lookup
  simp only [hsplit, lookupKey_insertKey_self]
  exact traverseFrom_setValue (y :: ys) [] t value path (by simp)

/-- C1 counterexample: in the registry `rNilSec` the first segment of
`"s.a"` names a registered section (both the loader table and the section
map bind `"s"`), the path has two segments, yet `Set` hits Go's
"assignment to entry in nil map" panic instead of storing the value, so the
set-then-get round trip fails. -/
theorem C1_counterexample :
    (splitDot "s.a").length = 2 ∧
    (lookupKey "s" rNilSec.loaders).isSome = true ∧
    (lookupKey "s" rNilSec.configs).isSome = true ∧
    ¬∃ r2, rNilSec.set "s.a" (.vInt 1) = .ok r2 ∧ r2.get "s.a" = .ok (.vInt 1) := by
  refine ⟨rfl, rfl, rfl, ?_⟩
  rintro ⟨r2, h, -⟩
  exact SetOutcome.noConfusion h

/-- C1 witness: a concrete round trip through `rEx`. -/
theorem C1_witness :
    ∃ r2, rEx.set "app.database.host" (.vStr "localhost") = .ok r2 ∧
      r2.get "app.database.host" = .ok (.vStr "localhost") :=
  C1_set_get_roundtrip rEx "app.database.host" (.vStr "localhost") "app"
    ["database", "host"] [("x", .vInt 1), ("name", .vStr "MyApp")] rfl
    (by simp) rfl

/-- C10: with the section stored as a non-nil tree and at least two
segments, `Set` returns no error; and an error return of `Set` only arises
from a short path or a missing section (a nil section panics instead, and
`setValue` itself always succeeds — it is total in the model). -/
theorem C10_set_errors (r : ConfigRegistry) (path : String) (value : Value) :
    (∀ section_ rest t, splitDot path = section_ :: rest → rest ≠ [] →
       lookupKey section_ r.configs = some (some t) →
       ∃ r2, r.set path value = .ok r2) ∧
    (∀ e, r.set path value = .err e →
       (splitDot path).length < 2 ∨
       lookupKey (splitDot path).headI r.configs = none) := by
  constructor
  · intro section_ rest t hsplit hrest hsec
    exact ⟨_, set_eq_ok_of_section r path value section_ rest t hsplit hrest hsec⟩
  · intro e
    unfold ConfigRegistry.set
    by_cases hlen : (splitDot path).length < 2
    · intro _; exact Or.inl hlen
    · rw [if_neg hlen]
      cases hsplit : splitDot path with
      | nil => simp [hsplit] at hlen
      | cons section_ rest =>
          dsimp only
          cases hsec : lookupKey section_ r.configs with
          | none => intro _; right; simp [hsplit, hsec]
          | some o =>
              cases o with
              | none => intro h; exact SetOutcome.noConfusion h
              | some t => intro h; exact SetOutcome.noConfusion h

/-- C10 witness: `Set` succeeds on a present, non-nil section. -/
theorem C10_witness : ∃ r2, rEx.set "app.name" (.vStr "Renamed") = .ok r2 :=
  (C10_set_errors rEx "app.name" (.vStr "Renamed")).1 "app" ["name"]
    [("x", .vInt 1), ("name", .vStr "MyApp")] rfl (by simp) rfl

/-- Loaders whose name is not mentioned leave a section's binding alone
during the `Refresh` loop. -/
theorem refreshConfigs_not_mem (entries : List (String × LoaderResult)) :
    ∀ (cfgs : List (String × Option ConfigTree)) (n : String),
    n ∉ entries.map Prod.fst →
    lookupKey n (refreshConfigs entries cfgs) = lookupKey n cfgs := by
  induction entries with
  | nil => intro cfgs n _; rfl
  | cons hd rest ih =>
      intro cfgs n hn
      obtain ⟨m, res⟩ := hd
      simp only [List.map_cons, List.mem_cons] at hn
      push_neg at hn
      obtain ⟨hnm, hnrest⟩ := hn
      cases res with
      | panics =>
          by_cases hmem : (lookupKey m cfgs).isSome
          · simp only [refreshConfigs, hmem, if_pos]
            exact ih cfgs n hnrest
          · simp only [refreshConfigs, hmem]
            rw [if_neg (by simp [hmem])]
            rw [ih _ n hnrest, lookupKey_insertKey_ne (fun h => hnm h.symm)]
      | returns t =>
          simp only [refreshConfigs]
          rw [ih _ n hnrest, lookupKey_insertKey_ne (fun h => hnm h.symm)]

/-- What the `Refresh` loop leaves under each registered name, assuming the
loader names are distinct (they are Go map keys): a panicking loader's
section is created empty only when absent, and a returning loader's section
is overwritten. -/
theorem refreshConfigs_mem (entries : List (String × LoaderResult)) :
    ∀ (cfgs : List (String × Option ConfigTree)) (n : String) (l : LoaderResult),
    (entries.map Prod.fst).Nodup → (n, l) ∈ entries →
    lookupKey n (refreshConfigs entries cfgs) =
      (match l with
       | .panics =>
           if (lookupKey n cfgs).isSome then lookupKey n cfgs else some (some [])
       | .returns t => some t) := by
  induction entries with
  | nil => intro _ _ _ _ hmem; simp at hmem
  | cons hd rest ih =>
      intro cfgs n l hnd hmem
      obtain ⟨m, res⟩ := hd
      simp only [List.map_cons, List.nodup_cons] at hnd
      obtain ⟨hmrest, hndrest⟩ := hnd
      rcases List.mem_cons.mp hmem with heq | hmemrest
      · cases heq
        have hnin : n ∉ rest.map Prod.fst := hmrest
        cases l with
        | panics =>
            by_cases hmem2 : (lookupKey n cfgs).isSome
            · simp only [refreshConfigs, hmem2, if_pos]
              rw [refreshConfigs_not_mem rest cfgs n hnin]
            · simp only [refreshConfigs, hmem2]
              rw [if_neg (by simp [hmem2])]
              rw [refreshConfigs_not_mem rest _ n hnin, lookupKey_insertKey_self]
              simp [hmem2]
        | returns t =>
            simp only [refreshConfigs]
            rw [refreshConfigs_not_mem rest _ n hnin, lookupKey_insertKey_self]
      · have hmn : m ≠ n := fun hcon =>
          hmrest (List.mem_map.mpr ⟨(n, l), hmemrest, hcon.symm⟩)
        cases res with
        | panics =>
            by_cases hmem2 : (lookupKey m cfgs).isSome
            · simp only [refreshConfigs, hmem2, if_pos]
              exact ih cfgs n l hndrest hmemrest
            · simp only [refreshConfigs, hmem2]
              rw [if_neg (by simp [hmem2])]
              rw [ih _ n l hndrest hmemrest, lookupKey_insertKey_ne hmn]
        | returns t =>
            simp only [refreshConfigs]
            rw [ih _ n l hndrest hmemrest, lookupKey_insertKey_ne hmn]

/-- C2: `Register` runs the loader under a recover that turns a panic into
an empty section (overwriting any previous tree), while `Refresh` runs each
loader under a per-iteration recover that creates an empty section only when
the name is absent and otherwise leaves the section untouched; a returning
loader always lands its tree.  Both operations are total on the whole loader
table — a panic neither propagates nor stops the remaining loaders, which is
why the refresh characterization holds at every position of the table. -/
theorem C2_loader_panic_isolation :
    (∀ (r : ConfigRegistry) (name : String),
       lookupKey name (r.register name .panics).configs = some (some [])) ∧
    (∀ (r : ConfigRegistry) (name : String) (t : Option ConfigTree),
       lookupKey name (r.register name (.returns t)).configs = some t) ∧
    (∀ (r : ConfigRegistry) (name : String) (loader : LoaderResult),
       (r.loaders.map Prod.fst).Nodup → (name, loader) ∈ r.loaders →
       lookupKey name r.refresh.configs =
         (match loader with
          | .panics =>
              if (lookupKey name r.configs).isSome then lookupKey name r.configs
              else some (some [])
          | .returns t => some t)) := by
  refine ⟨?_, ?_, ?_⟩
  · intro r name
    simp [ConfigRegistry.register, lookupKey_insertKey_self]
  · intro r name t
    simp [ConfigRegistry.register, lookupKey_insertKey_self]
  · intro r name loader hnd hmem
    exact refreshConfigs_mem r.loaders r.configs name loader hnd hmem

/-- Registry exercising all three refresh cases: a panicking loader with no
section, a returning loader, and a panicking loader whose section exists. -/
def rC2 : ConfigRegistry :=
  { configs := [("c", some [("x", .vInt 2)])],
    loaders := [("a", .panics), ("b", .returns (some [("k", .vInt 1)])), ("c", .panics)] }

/-- C2 witness: concrete register-on-panic and one refresh over `rC2`. -/
theorem C2_witness :
    lookupKey "s" ((ConfigRegistry.mk [] []).register "s" .panics).configs = some (some []) ∧
    lookupKey "a" rC2.refresh.configs = some (some []) ∧
    lookupKey "b" rC2.refresh.configs = some (some [("k", .vInt 1)]) ∧
    lookupKey "c" rC2.refresh.configs = some (some [("x", .vInt 2)]) := by
  refine ⟨C2_loader_panic_isolation.1 (ConfigRegistry.mk [] []) "s", ?_, ?_, ?_⟩
  · have h := C2_loader_panic_isolation.2.2 rC2 "a" .panics (by decide)
      (List.mem_cons_self _ _)
    exact h.trans rfl
  · have h := C2_loader_panic_isolation.2.2 rC2 "b" (.returns (some [("k", .vInt 1)]))
      (by decide) (List.mem_cons_of_mem _ (List.mem_cons_self _ _))
    exact h.trans rfl
  · have h := C2_loader_panic_isolation.2.2 rC2 "c" .panics (by decide)
      (List.mem_cons_of_mem _ (List.mem_cons_of_mem _ (List.mem_cons_self _ _)))
    exact h.trans rfl

/-- C3: every typed getter first calls `Get`; when that fails, a supplied
default is returned with no error, and without a default the lookup error
propagates unchanged; when `Get` succeeds, the result is exactly the typed
coercion of the stored value — the default plays no role, so a coercion
mismatch yields the typed error even when a default was supplied. -/
theorem C3_typed_getter_defaults (r : ConfigRegistry) (path : String) :
    (∀ e, r.get path = .error e →
       (∀ d, r.getString path (some d) = .ok d) ∧ r.getString path none = .error e ∧
       (∀ d, r.getInt path (some d) = .ok d) ∧ r.getInt path none = .error e ∧
       (∀ d, r.getBool path (some d) = .ok d) ∧ r.getBool path none = .error e ∧
       (∀ d, r.getFloat path (some d) = .ok d) ∧ r.getFloat path none = .error e ∧
       (∀ d, r.getStringArray path (some d) = .ok d) ∧
       r.getStringArray path none = .error e) ∧
    (∀ v, r.get path = .ok v →
       (∀ dflt, r.getString path dflt = coerceString path v) ∧
       (∀ dflt, r.getInt path dflt = coerceInt path v) ∧
       (∀ dflt, r.getBool path dflt = coerceBool path v) ∧
       (∀ dflt, r.getFloat path dflt = coerceFloat path v) ∧
       (∀ dflt, r.getStringArray path dflt = coerceStringArray path v)) := by
  constructor
  · intro e he
    refine ⟨?_, ?_, ?_, ?_, ?_, ?_, ?_, ?_, ?_, ?_⟩ <;>
      simp [ConfigRegistry.getString, ConfigRegistry.getInt, ConfigRegistry.getBool,
        ConfigRegistry.getFloat, ConfigRegistry.getStringArray, he]
  · intro v hv
    refine ⟨?_, ?_, ?_, ?_, ?_⟩ <;> intro dflt <;>
      simp [ConfigRegistry.getString, ConfigRegistry.getInt, ConfigRegistry.getBool,
        ConfigRegistry.getFloat, ConfigRegistry.getStringArray, hv]

/-- C3 witness: on `rEx`, a failed lookup returns the supplied default with
no error, and a successful lookup of a non-numeric string fails `GetInt`
with the typed conversion error even though a default was supplied. -/
theorem C3_witness :
    rEx.getString "missing.x" (some "fallback") = .ok "fallback" ∧
    rEx.getInt "missing.x" (some 9) = .ok 9 ∧
    rEx.getInt "t.string_value" (some 9) =
      .error "cannot convert value \x27test\x27 at path \x27t.string_value\x27 to int: invalid syntax" := by
  refine ⟨?_, ?_, ?_⟩
  · exact ((C3_typed_getter_defaults rEx "missing.x").1 _ rfl).1 "fallback"
  · exact ((C3_typed_getter_defaults rEx "missing.x").1 _ rfl).2.2.1 9
  · exact (((C3_typed_getter_defaults rEx "t.string_value").2 (.vStr "test") rfl).2.1
      (some 9)).trans rfl

/-- Unfolding lemma avoiding the name clash with Mathlib's traversals. -/
theorem traverse_eq_from (config : ConfigTree) (parts : List String) (fullPath : String) :
    traverse config parts fullPath = traverseFrom [] config parts fullPath := rfl

/-- C4: wherever `traverse` stands after descending a fully-walkable prefix
`pre`, failure at the next segment `k` reports: for a non-final `k`, "key
not found" or "is not a map, cannot traverse further" with the accumulated
prefix `joinDot (pre ++ [k])` — all segments visited so far including the
failing one; for a final `k`, "key not found" naming only `k` itself. -/
theorem C4_traverse_error_messages (t t2 : ConfigTree) (pre : List String)
    (k full : String) (hw : walk t pre = some t2) :
    (∀ rest, rest ≠ [] → lookupKey k t2 = none →
       traverse t (pre ++ k :: rest) full =
         .error ("key not found: \x27" ++ joinDot (pre ++ [k]) ++ "\x27 in path \x27"
           ++ full ++ "\x27")) ∧
    (∀ rest v, rest ≠ [] → lookupKey k t2 = some v → (∀ sub, v ≠ .vTree sub) →
       traverse t (pre ++ k :: rest) full =
         .error ("value at \x27" ++ joinDot (pre ++ [k]) ++ "\x27 in path \x27" ++ full
           ++ "\x27 is not a map, cannot traverse further")) ∧
    (lookupKey k t2 = none →
       traverse t (pre ++ [k]) full =
         .error ("key not found: \x27" ++ k ++ "\x27 in path \x27" ++ full ++ "\x27")) := by
  refine ⟨?_, ?_, ?_⟩
  · intro rest hrest hlk
    obtain ⟨y, ys, rfl⟩ := List.exists_cons_of_ne_nil hrest
    rw [traverse_eq_from,
      traverseFrom_after_walk pre [] t t2 (k :: y :: ys) full hw (by simp)]
    simp [traverseFrom, hlk]
  · intro rest v hrest hlk hnt
    obtain ⟨y, ys, rfl⟩ := List.exists_cons_of_ne_nil hrest
    rw [traverse_eq_from,
      traverseFrom_after_walk pre [] t t2 (k :: y :: ys) full hw (by simp)]
    cases v with
    | vTree sub => exact absurd rfl (hnt sub)
    | vNull => simp [traverseFrom, hlk]
    | vBool b => simp [traverseFrom, hlk]
    | vInt n => simp [traverseFrom, hlk]
    | vFloat q => simp [traverseFrom, hlk]
    | vStr s => simp [traverseFrom, hlk]
    | vStrList xs => simp [traverseFrom, hlk]
    | vSeq xs => simp [traverseFrom, hlk]
  · intro hlk
    rw [traverse_eq_from,
      traverseFrom_after_walk pre [] t t2 [k] full hw (by simp)]
    simp [traverseFrom, hlk]

/-- Deeply nested tree from the end-to-end scenario of the spec. -/
def tC4 : ConfigTree :=
  [("nested", .vTree [("deep", .vTree
      [("deeper", .vTree [("deepest", .vStr "found")]), ("scalar", .vInt 7)])])]

/-- C4 witness: the three failure shapes on `tC4`, with the accumulated
prefixes spelled out. -/
theorem C4_witness :
    traverse tC4 ["nested", "deep", "invalid", "path"] "t.nested.deep.invalid.path" =
      .error "key not found: \x27nested.deep.invalid\x27 in path \x27t.nested.deep.invalid.path\x27" ∧
    traverse tC4 ["nested", "deep", "scalar", "x"] "t.nested.deep.scalar.x" =
      .error "value at \x27nested.deep.scalar\x27 in path \x27t.nested.deep.scalar.x\x27 is not a map, cannot traverse further" ∧
    traverse tC4 ["nested", "deep", "missing"] "t.nested.deep.missing" =
      .error "key not found: \x27missing\x27 in path \x27t.nested.deep.missing\x27" := by
  have h := C4_traverse_error_messages tC4
    [("deeper", .vTree [("deepest", .vStr "found")]), ("scalar", .vInt 7)]
    ["nested", "deep"]
  refine ⟨?_, ?_, ?_⟩
  · exact ((h "invalid" "t.nested.deep.invalid.path" rfl).1 ["path"] (by simp) rfl).trans rfl
  · exact ((h "scalar" "t.nested.deep.scalar.x" rfl).2.1 ["x"] (.vInt 7) (by simp) rfl
      (fun sub => by simp)).trans rfl
  · exact ((h "missing" "t.nested.deep.missing" rfl).2.2 rfl).trans rfl

/-- A run of schema fields that all traverse successfully and pass
`validateValue` leaves the tree unchanged and succeeds. -/
theorem validateFields_all_ok (fields : List (String × ConfigSchemaField)) :
    ∀ (T : ConfigTree),
    (∀ q g, (q, g) ∈ fields →
       ∃ v, traverse T (splitDot q) q = .ok v ∧ validateValue v g = .ok ()) →
    validateFields fields T = .ok T := by
  induction fields with
  | nil => intro T _; rfl
  | cons hd rest ih =>
      intro T h
      obtain ⟨q, g⟩ := hd
      obtain ⟨v, hv, hval⟩ := h q g (List.mem_cons_self _ _)
      simp only [validateFields, hv, hval]
      exact ih T (fun q2 g2 hq2 => h q2 g2 (List.mem_cons_of_mem _ hq2))

/-- C5: if a schema contains an optional field `p` carrying a non-nil
default, the input tree lacks `p` (its traversal fails), every field listed
before `p` validates against the input tree and every field after `p`
validates against the tree with the default injected, then `Validate`
succeeds returning the input tree mutated by `setValue` at `p`, and that
tree now holds the default at `p`. -/
theorem C5_validate_injects_default (pre post : List (String × ConfigSchemaField))
    (p : String) (f : ConfigSchemaField) (t : ConfigTree) (d : Value)
    (parts : List String) (hparts : splitDot p = parts) (hne : parts ≠ [])
    (hreq : f.required = false) (hdef : f.default = some d)
    (hfail : (traverse t parts p).isOk = false)
    (hpre : ∀ q g, (q, g) ∈ pre →
       ∃ v, traverse t (splitDot q) q = .ok v ∧ validateValue v g = .ok ())
    (hpost : ∀ q g, (q, g) ∈ post →
       ∃ v, traverse (setValue t parts d) (splitDot q) q = .ok v ∧
         validateValue v g = .ok ()) :
    ConfigSchema.validate ⟨pre ++ (p, f) :: post⟩ t = .ok (setValue t parts d) ∧
    traverse (setValue t parts d) parts p = .ok d := by
  constructor
  · show validateFields (pre ++ (p, f) :: post) t = .ok (setValue t parts d)
    induction pre with
    | nil =>
        cases hres : traverse t parts p with
        | ok v => rw [hres] at hfail; exact Bool.noConfusion hfail
        | error e =>
            simp only [List.nil_append, validateFields, hparts, hres, hreq, hdef,
              Bool.false_eq_true, if_false]
            exact validateFields_all_ok post (setValue t parts d) hpost
    | cons hd pre2 ih =>
        obtain ⟨q, g⟩ := hd
        obtain ⟨v, hv, hval⟩ := hpre q g (List.mem_cons_self _ _)
        simp only [List.cons_append, validateFields, hv, hval]
        exact ih (fun q2 g2 hq2 => hpre q2 g2 (List.mem_cons_of_mem _ hq2))
  · rw [traverse_eq_from]
    exact traverseFrom_setValue parts [] t d p hne

/-- Optional string field with a non-nil default, as in the spec's S5
scenario. -/
def fC5 : ConfigSchemaField :=
  { type := .kString, required := false, default := some (.vStr "default"),
    validator := none }

/-- C5 witness: validating the empty tree against the one-field schema
injects the default and reports the mutated tree. -/
theorem C5_witness :
    ConfigSchema.validate ⟨[("test.optional_value", fC5)]⟩ [] =
      .ok [("test", .vTree [("optional_value", .vStr "default")])] ∧
    traverse [("test", .vTree [("optional_value", .vStr "default")])]
      ["test", "optional_value"] "test.optional_value" = .ok (.vStr "default") := by
  have h := C5_validate_injects_default [] [] "test.optional_value" fC5 []
    (.vStr "default") ["test", "optional_value"] rfl (by simp) rfl rfl rfl
    (fun q g hq => absurd hq (List.not_mem_nil _))
    (fun q g hq => absurd hq (List.not_mem_nil _))
  exact ⟨h.1, h.2⟩

/-- C6 counterexample: on the string `"a, b"` the unmarshal conversion
keeps the leading space that the `GetStringArray` coercion trims, and on a
sequence holding the non-string `5` the unmarshal conversion formats it as
`"5"` where the coercion rejects it naming index and type. -/
theorem C6_counterexample :
    toStringSlice (.vStr "a, b") = .ok ["a", " b"] ∧
    coerceStringArray "p" (.vStr "a, b") = .ok ["a", "b"] ∧
    (["a", " b"] : List String) ≠ ["a", "b"] ∧
    toStringSlice (.vSeq [.vInt 5]) = .ok ["5"] ∧
    coerceStringArray "p" (.vSeq [.vInt 5]) =
      .error "cannot convert item at index 0 in path \x27p\x27 to string: found type int" :=
  ⟨rfl, rfl, by decide, rfl, rfl⟩

/-- C6 (amended): for struct fields of slice-of-string kind, unmarshal's
`toStringSlice` differs from the `GetStringArray` coercion — a string source
is split on `,` with no whitespace trimming (the empty string still yields
the empty sequence, and `[]string` still passes through), and a sequence
source converts every element with the generic `toString` formatter, never
failing on non-string elements. -/
theorem C6_toStringSlice_spec :
    (∀ xs, toStringSlice (.vStrList xs) = .ok xs) ∧
    toStringSlice (.vStr "") = .ok [] ∧
    (∀ s, s ≠ "" → toStringSlice (.vStr s) = .ok (splitOnChar ',' s)) ∧
    (∀ xs, toStringSlice (.vSeq xs) = .ok (xs.map goToString)) ∧
    (∀ v, setFieldStringSlice v = toStringSlice v) := by
  refine ⟨fun xs => rfl, rfl, ?_, ?_, fun v => rfl⟩
  · intro s hs
    simp [toStringSlice, hs]
  · intro xs
    simp only [toStringSlice, Except.ok.injEq]
    induction xs with
    | nil => rfl
    | cons v rest ih => simp [goToStringList, ih]

/-- C6 witness: the non-empty-string case of the amended statement at a
concrete input. -/
theorem C6_witness : toStringSlice (.vStr "x, y") = .ok (splitOnChar ',' "x, y") :=
  C6_toStringSlice_spec.2.2.1 "x, y" (by decide)

/-- C7: characterization of `GetString`'s type switch after a successful
lookup: a stored string is returned unchanged, and any other stored value
fails with `"value at <path> is not a string"` — a message that names the
path (unquoted) but not the stored value's type. -/
theorem C7_getString_message (r : ConfigRegistry) (path : String) (v : Value)
    (hv : r.get path = .ok v) :
    (∀ s, v = .vStr s → r.getString path none = .ok s) ∧
    ((∀ s, v ≠ .vStr s) →
      r.getString path none = .error ("value at " ++ path ++ " is not a string")) := by
  constructor
  · rintro s rfl
    simp [ConfigRegistry.getString, hv, coerceString]
  · intro hns
    cases v with
    | vStr s => exact absurd rfl (hns s)
    | vNull => simp [ConfigRegistry.getString, hv, coerceString]
    | vBool b => simp [ConfigRegistry.getString, hv, coerceString]
    | vInt n => simp [ConfigRegistry.getString, hv, coerceString]
    | vFloat q => simp [ConfigRegistry.getString, hv, coerceString]
    | vStrList xs => simp [ConfigRegistry.getString, hv, coerceString]
    | vSeq xs => simp [ConfigRegistry.getString, hv, coerceString]
    | vTree t2 => simp [ConfigRegistry.getString, hv, coerceString]

/-- C7 counterexample: `GetString` on the int stored at `t.int_value` fails
with `"value at t.int_value is not a string"`, not with the generic
`"cannot convert value at path '<p>' to <target>: found type <typeName>"`
template the claim states (the two messages differ). -/
theorem C7_counterexample :
    rEx.get "t.int_value" = .ok (.vInt 42) ∧
    rEx.getString "t.int_value" none = .error "value at t.int_value is not a string" ∧
    ("value at t.int_value is not a string" ≠
      "cannot convert value at path \x27t.int_value\x27 to string: found type int") :=
  ⟨rfl, rfl, by decide⟩

/-- C7 witness: both branches of the characterization on `rEx`. -/
theorem C7_witness :
    rEx.getString "t.string_value" none = .ok "test" ∧
    rEx.getString "t.int_value" none = .error "value at t.int_value is not a string" := by
  constructor
  · exact (C7_getString_message rEx "t.string_value" (.vStr "test") rfl).1 "test" rfl
  · exact (C7_getString_message rEx "t.int_value" (.vInt 42) rfl).2
      (fun s h => Value.noConfusion h)

/-- C8: the path cache returns the memoized entry verbatim — if the cache
already binds `p` the stored sequence itself is returned and the cache is
untouched (no fresh split happens, whatever the stored sequence is) — and
after any `Get` the cache binds `p` to exactly the returned sequence, so a
second `Get` returns that same stored entry and changes nothing. -/
theorem C8_cache_identity :
    (∀ (c : PathCache) (p : String) (xs : List String),
       lookupKey p c.cache = some xs → c.get p = (xs, c)) ∧
    (∀ (pc : PathCache) (p : String),
       lookupKey p ((pc.get p).2).cache = some (pc.get p).1 ∧
       ((pc.get p).2).get p = ((pc.get p).1, (pc.get p).2)) := by
  constructor
  · intro c p xs h
    simp [PathCache.get, h]
  · intro pc p
    cases h : lookupKey p pc.cache with
    | some xs =>
        constructor
        · simp [PathCache.get, h]
        · simp [PathCache.get, h]
    | none =>
        constructor
        · simp [PathCache.get, h, lookupKey_insertKey_self]
        · simp only [PathCache.get, h]
          simp [lookupKey_insertKey_self]

/-- C8 witness: a cache pre-seeded with a sequence that is NOT the split of
its key still returns the stored entry (second call hits the memo, not the
splitter), and a fresh cache memoizes the split on first use. -/
theorem C8_witness :
    PathCache.get ⟨[("a.b", ["cached"])]⟩ "a.b" = (["cached"], ⟨[("a.b", ["cached"])]⟩) ∧
    lookupKey "a.b" ((PathCache.get ⟨[]⟩ "a.b").2).cache = some ["a", "b"] := by
  constructor
  · exact C8_cache_identity.1 ⟨[("a.b", ["cached"])]⟩ "a.b" ["cached"] rfl
  · exact ((C8_cache_identity.2 ⟨[]⟩ "a.b").1).trans rfl

/-- C9: if the very first `GetConfigRegistry` call fails (empty label,
invalid label, or dotenv failure), the once-guard has fired with the global
registry still nil, so every later call — with any label and any dotenv
behaviour — returns `(nil, nil)`: a nil registry and no error, and the
state never changes again. -/
theorem C9_failed_init_latches (env0 : String) (d0 : String → DotenvOutcome)
    (out : Option ConfigRegistry × Option String) (st1 : GlobalState)
    (hrun : getConfigRegistry ⟨none, false⟩ env0 d0 = (out, st1))
    (herr : out.2.isSome) :
    ∀ (env : String) (d : String → DotenvOutcome),
      getConfigRegistry st1 env d = ((none, none), st1) := by
  intro env d
  have hst : st1 = ⟨none, true⟩ := by
    unfold getConfigRegistry at hrun
    simp only [if_neg (by simp : ¬(false = true))] at hrun
    by_cases h1 : env0 = ""
    · simp only [h1, if_pos rfl] at hrun
      exact (Prod.mk.injEq .. ▸ hrun).2.symm ▸ rfl
    · rw [if_neg h1] at hrun
      by_cases h2 : env0 = "development" ∨ env0 = "staging" ∨ env0 = "production"
      · rw [if_pos h2] at hrun
        cases hd : d0 ".env" with
        | failure m => rw [hd] at hrun; exact ((Prod.mk.injEq ..).mp hrun).2.symm
        | success =>
            rw [hd] at hrun
            have : out = (some { configs := [], loaders := [] }, none) :=
              ((Prod.mk.injEq ..).mp hrun).1.symm
            rw [this] at herr
            exact Bool.noConfusion herr
      · rw [if_neg h2] at hrun
        by_cases h3 : env0 = "testing"
        · rw [if_pos h3] at hrun
          cases hd : d0 ".env.testing" with
          | failure m => rw [hd] at hrun; exact ((Prod.mk.injEq ..).mp hrun).2.symm
          | success =>
              rw [hd] at hrun
              have : out = (some { configs := [], loaders := [] }, none) :=
                ((Prod.mk.injEq ..).mp hrun).1.symm
              rw [this] at herr
              exact Bool.noConfusion herr
        · rw [if_neg h3] at hrun
          exact ((Prod.mk.injEq ..).mp hrun).2.symm
  rw [hst]
  rfl

/-- C9 witness: a first call with an invalid label fails, and the next call
with a valid label still returns a nil registry and a nil error. -/
theorem C9_witness :
    getConfigRegistry ⟨none, true⟩ "testing" (fun _ => .success) =
      ((none, none), ⟨none, true⟩) := by
  have h0 : getConfigRegistry ⟨none, false⟩ "bogus" (fun _ => .success) =
      ((none, some "invalid env: bogus"), ⟨none, true⟩) := rfl
  exact C9_failed_init_latches "bogus" (fun _ => .success)
    (none, some "invalid env: bogus") ⟨none, true⟩ h0 rfl "testing" (fun _ => .success)
